import Mathlib

/-!
Verification of the stroke capture/edit pipeline of the note-taking app.

The definitions below are shallow embeddings of the TypeScript source:
JavaScript numbers are modelled as exact rationals (ℚ); the source's
`Math.sqrt d ≤ r` comparisons are embedded as the equivalent
`0 ≤ r ∧ d ≤ r ^ 2` on squared distances, so everything stays executable
and decidable.  Mutable arrays become Lean lists; the JS `array.push` /
`array.pop` stack discipline is modelled with cons-at-head lists whose
head is the stack top.
-/

namespace NoteApp

/-- `StrokePoint` from `types/note.ts`: a point in model coordinates. -/
structure StrokePoint where
  x : ℚ
  y : ℚ
deriving DecidableEq, Repr

/-- `StrokeTool` from `types/note.ts`. -/
inductive StrokeTool where
  | pen
  | highlighter
  | eraser
deriving DecidableEq, Repr

/-- `Stroke` from `types/note.ts`. -/
structure Stroke where
  id : String
  tool : StrokeTool
  color : String
  size : ℚ
  opacity : ℚ
  points : List StrokePoint
deriving DecidableEq, Repr

/-! ## Geometry utilities (`utils/canvasGeometry.ts`, `tools/EraserTool.ts`) -/

/-- Squared Euclidean distance.  The source's `distanceBetween` returns
`Math.sqrt (dx*dx + dy*dy)`; we keep the radicand and compare squares. -/
def distanceSq (a b : StrokePoint) : ℚ :=
  (a.x - b.x) ^ 2 + (a.y - b.y) ^ 2

/-- `√s ≤ r` expressed without square roots: for `0 ≤ s` this is
`0 ≤ r ∧ s ≤ r ^ 2`.  Used wherever the source compares a Euclidean
distance against a threshold. -/
def sqrtLe (s r : ℚ) : Bool :=
  decide (0 ≤ r) && decide (s ≤ r ^ 2)

/-- `√s < r` without square roots: `0 < r ∧ s < r ^ 2` (for `0 ≤ s`). -/
def sqrtLt (s r : ℚ) : Bool :=
  decide (0 < r) && decide (s < r ^ 2)

/-- `clamp` from `utils/canvasGeometry.ts`:
`Math.max(min, Math.min(max, value))`. -/
def clamp (value min' max' : ℚ) : ℚ :=
  max min' (min max' value)

/-- Squared form of `distancePointToSegment` from `tools/EraserTool.ts`
(and `utils/canvasGeometry.ts`): project onto the segment, clamp the
parameter to `[0,1]`, return the (squared) distance to the clamped point.
Degenerate segment `a = b` falls back to the point distance. -/
def distanceSqPointToSegment (point start stop : StrokePoint) : ℚ :=
  let dx := stop.x - start.x
  let dy := stop.y - start.y
  if dx = 0 ∧ dy = 0 then
    distanceSq point start
  else
    let t := ((point.x - start.x) * dx + (point.y - start.y) * dy) / (dx * dx + dy * dy)
    let clamped := max 0 (min 1 t)
    let closest : StrokePoint := ⟨start.x + clamped * dx, start.y + clamped * dy⟩
    distanceSq point closest

/-- `isPointInPolygon` from `types/note.ts` / `utils/canvasGeometry.ts`:
even-odd ray casting.  The JS loop runs `i` over all indices with `j` the
previous index (wrapping to the last vertex for `i = 0`), so the edge list
is the polygon zipped with its rotation by one. -/
def polygonEdges (polygon : List StrokePoint) : List (StrokePoint × StrokePoint) :=
  match polygon.getLast? with
  | none => []
  | some last => polygon.zip (last :: polygon.dropLast)

/-- One iteration's crossing condition:
`(yi > y) ≠ (yj > y) ∧ x < (xj − xi)·(y − yi)/(yj − yi) + xi`. -/
def edgeCrosses (point : StrokePoint) (pi' pj : StrokePoint) : Bool :=
  (decide (pi'.y > point.y) != decide (pj.y > point.y)) &&
    decide (point.x < (pj.x - pi'.x) * (point.y - pi'.y) / (pj.y - pi'.y) + pi'.x)

/-- `isPointInPolygon`: fold the crossing parity over all edges. -/
def isPointInPolygon (point : StrokePoint) (polygon : List StrokePoint) : Bool :=
  (polygonEdges polygon).foldl
    (fun inside e => if edgeCrosses point e.1 e.2 then !inside else inside) false

/-! ## Stroke helpers (`utils/canvasDrawing.ts`) -/

/-- `translateStroke`: a new stroke with every point shifted by `delta`;
the original is untouched (pure function). -/
def translateStroke (stroke : Stroke) (delta : StrokePoint) : Stroke :=
  { stroke with points := stroke.points.map (fun p => ⟨p.x + delta.x, p.y + delta.y⟩) }

/-- `cloneStrokes`: shallow-copies each stroke and its points array.
With immutable Lean lists this is the identity, which is exactly the
"snapshots are exact copies, unaffected by later mutations" guarantee. -/
def cloneStrokes (strokes : List Stroke) : List Stroke :=
  strokes.map (fun stroke => { stroke with points := stroke.points })

/-! ## History manager (`useCanvasHistory` in `hooks/useCanvasZoom.ts`) -/

/-- The state held by `useCanvasHistory`: the live stroke list plus the
`history` (past snapshots) and `future` (undone snapshots) stacks.
JS `push`/`pop` act on the array end; the list head is the stack top. -/
structure HistoryState where
  strokes : List Stroke
  history : List (List Stroke)
  future : List (List Stroke)
deriving DecidableEq, Repr

/-- `commitStrokes`: snapshot the previous strokes onto `history`, clear
`future`, and replace the live list with the updater's result (the source
clones before and after applying the updater). -/
def commitStrokes (updater : List Stroke → List Stroke) (st : HistoryState) : HistoryState :=
  { strokes := cloneStrokes (updater (cloneStrokes st.strokes))
    history := cloneStrokes st.strokes :: st.history
    future := [] }

/-- `undo`: no-op when `history` is empty; otherwise pop `history` into
the live list and push the old live list onto `future`. -/
def undo (st : HistoryState) : HistoryState :=
  match st.history with
  | [] => st
  | previous :: rest =>
      { strokes := cloneStrokes previous
        history := rest
        future := cloneStrokes st.strokes :: st.future }

/-- `redo`: mirror of `undo`. -/
def redo (st : HistoryState) : HistoryState :=
  match st.future with
  | [] => st
  | next :: rest =>
      { strokes := cloneStrokes next
        history := cloneStrokes st.strokes :: st.history
        future := rest }

/-! ## Viewport and coordinate mapping (`CanvasWorkspace.tsx`) -/

/-- `MIN_SCALE` in `CanvasWorkspace.tsx`. -/
def MIN_SCALE : ℚ := 6/10

/-- `MAX_SCALE` in `CanvasWorkspace.tsx`. -/
def MAX_SCALE : ℚ := 7/2

/-- Viewport transform: scale plus pan offset. -/
structure Viewport where
  scale : ℚ
  offsetX : ℚ
  offsetY : ℚ
deriving DecidableEq, Repr

/-- The canvas container is positioned by the CSS transform
`matrix(scale, 0, 0, scale, offsetX, offsetY)` with origin `0 0`, so the
bounding rect's corner is the untransformed container origin shifted by
the viewport offset. -/
def rectLeftOf (containerLeft : ℚ) (v : Viewport) : ℚ :=
  containerLeft + v.offsetX

/-- Top coordinate of the bounding rect under the CSS matrix transform. -/
def rectTopOf (containerTop : ℚ) (v : Viewport) : ℚ :=
  containerTop + v.offsetY

/-- `toCanvasPoint` from `CanvasWorkspace.tsx`:
`((clientX − rect.left) / scale, (clientY − rect.top) / scale)`. -/
def toCanvasPoint (clientX clientY rectLeft rectTop scale : ℚ) : StrokePoint :=
  ⟨(clientX - rectLeft) / scale, (clientY - rectTop) / scale⟩

/-- Modelled from the spec: the inverse viewport transform
`clientPoint = modelPoint × scale + offset + containerOrigin`
(spec §8.1 and §4.3), used to state the round-trip property. -/
def modelToClient (model : StrokePoint) (v : Viewport)
    (containerLeft containerTop : ℚ) : StrokePoint :=
  ⟨model.x * v.scale + v.offsetX + containerLeft,
   model.y * v.scale + v.offsetY + containerTop⟩

/-! ## Pinch / pan gesture controller (`hooks/usePointerHandlers.ts`,
the variant with lazy zoom/pan classification) -/

/-- Gesture classification, `null` while still in the dead-zone. -/
inductive GestureType where
  | zoom
  | pan
deriving DecidableEq, Repr

/-- `PinchState`: the baseline snapshotted when the second touch lands.
`initialPinchDistance` and `panStartOffset` are always set together with
the rest at pointer-down, so they are plain fields here. -/
structure PinchState where
  initialDistance : ℚ
  initialScale : ℚ
  initialOffsetX : ℚ
  initialOffsetY : ℚ
  initialMidpointX : ℚ
  initialMidpointY : ℚ
  gestureType : Option GestureType
  initialPinchDistance : ℚ
  panStartOffsetX : ℚ
  panStartOffsetY : ℚ
deriving DecidableEq, Repr

/-- `MIN_FINGER_DISTANCE` in the pointer-handlers hook. -/
def MIN_FINGER_DISTANCE : ℚ := 100

/-- `Number.EPSILON`, the fallback divisor when the cached initial
distance is `0` (`pinchState.initialDistance || Number.EPSILON`). -/
def NUMBER_EPSILON : ℚ := 1 / 2 ^ 52

/-- The new clamped scale of a pinch zoom update:
`clamp(initialScale × dist / (initialDistance || EPSILON), MIN, MAX)`. -/
def pinchNextScale (ps : PinchState) (dist : ℚ) : ℚ :=
  let scaleDelta := dist / (if ps.initialDistance = 0 then NUMBER_EPSILON else ps.initialDistance)
  clamp (ps.initialScale * scaleDelta) MIN_SCALE MAX_SCALE

/-- The zoom arm of the pinch `setViewport` updater: clamp the scaled
baseline, snap near the rest scale, otherwise compute
`midCanvas = (mid − rect.left − initialOffset)/initialScale` and solve
`newOffset = clientMid − midCanvas × newScale`.  `rectLeft`/`rectTop`
come from `getBoundingClientRect()`; since the canvas sits inside the
CSS `matrix(scale, 0, 0, scale, offsetX, offsetY)` container, at update
time `rectLeft = containerLeft + prev.offsetX` (see `rectLeftOf`), so
theorems about this arm instantiate the rect arguments with
`rectLeftOf`/`rectTopOf` of the currently applied viewport.  Note the
arm subtracts `initialOffset` from a rect-relative midpoint that already
includes the applied offset — unlike `handleWheel`, which first corrects
with `baseLeft = rect.left − prev.offsetX`. -/
def pinchZoomViewport (ps : PinchState) (prev : Viewport)
    (dist midX midY rectLeft rectTop : ℚ) : Viewport :=
  let nextScale := pinchNextScale ps dist
  let nearBoundary := nextScale ≤ 105/100 ∧ prev.scale ≤ 105/100
  if nearBoundary then
    { scale := max 1 nextScale, offsetX := 0, offsetY := 0 }
  else
    let clientMidX := midX - rectLeft
    let clientMidY := midY - rectTop
    let midCanvasX := (clientMidX - ps.initialOffsetX) / ps.initialScale
    let midCanvasY := (clientMidY - ps.initialOffsetY) / ps.initialScale
    { scale := nextScale
      offsetX := clientMidX - midCanvasX * nextScale
      offsetY := clientMidY - midCanvasY * nextScale }

/-- The pan arm of the pinch `setViewport` updater: dead-zone, a larger
minimum displacement at rest scale, else baseline offset plus midpoint
displacement. -/
def pinchPanViewport (ps : PinchState) (prev : Viewport)
    (deltaMidX deltaMidY : ℚ) : Viewport :=
  let nextOffsetX := ps.panStartOffsetX + deltaMidX
  let nextOffsetY := ps.panStartOffsetY + deltaMidY
  if |deltaMidX| < 5 ∧ |deltaMidY| < 5 then prev
  else if prev.scale ≤ 105/100 ∧ deltaMidX ^ 2 + deltaMidY ^ 2 < 20 ^ 2 then prev
  else { scale := prev.scale, offsetX := nextOffsetX, offsetY := nextOffsetY }

/-- The whole two-pointer `handlePointerMove` branch: lazily classify the
gesture (zoom beyond a 12px distance change with fingers apart, pan
beyond an 8px midpoint displacement, otherwise wait), then run the
locked arm.  Returns the updated pinch state and viewport. -/
def pinchMove (ps : PinchState) (prev : Viewport)
    (dist midX midY rectLeft rectTop : ℚ) : PinchState × Viewport :=
  let pinchDelta := dist - ps.initialPinchDistance
  let deltaMidX := midX - ps.initialMidpointX
  let deltaMidY := midY - ps.initialMidpointY
  let classified : Option GestureType :=
    match ps.gestureType with
    | some g => some g
    | none =>
        if |pinchDelta| > 12 ∧ dist ≥ MIN_FINGER_DISTANCE then some .zoom
        else if deltaMidX ^ 2 + deltaMidY ^ 2 > 8 ^ 2 then some .pan
        else none
  match classified with
  | none => (ps, prev)
  | some .zoom =>
      ({ ps with gestureType := some .zoom },
        pinchZoomViewport ps prev dist midX midY rectLeft rectTop)
  | some .pan =>
      ({ ps with gestureType := some .pan },
        pinchPanViewport ps prev deltaMidX deltaMidY)

/-- `handleWheel`'s `setViewport` updater, with the (transcendental)
`Math.exp(-deltaY * ZOOM_SENSITIVITY)` factor taken as a parameter. -/
def wheelViewport (prev : Viewport) (clientX clientY rectLeft rectTop zoomFactor : ℚ) :
    Viewport :=
  let point := toCanvasPoint clientX clientY rectLeft rectTop prev.scale
  let nextScale := clamp (prev.scale * zoomFactor) MIN_SCALE MAX_SCALE
  if nextScale = prev.scale then prev
  else if nextScale ≤ 105/100 ∧ prev.scale ≤ 105/100 then
    { scale := 1, offsetX := 0, offsetY := 0 }
  else
    let baseLeft := rectLeft - prev.offsetX
    let baseTop := rectTop - prev.offsetY
    { scale := nextScale
      offsetX := clientX - baseLeft - nextScale * point.x
      offsetY := clientY - baseTop - nextScale * point.y }

/-- The middle-mouse-drag pan `setViewport` updater: pure pan. -/
def middlePanViewport (prev : Viewport) (initialOffsetX initialOffsetY deltaX deltaY : ℚ) :
    Viewport :=
  { prev with offsetX := initialOffsetX + deltaX, offsetY := initialOffsetY + deltaY }

/-! ## Toolbar zoom buttons (`useViewportZoom` in `hooks/useCanvasRenderer.ts`) -/

/-- `zoomIn`: step the scale up by 1.2×, clamped; keep the state when the
scale is unchanged; zero the offset only when the new scale is ≤ 1. -/
def zoomIn (prev : Viewport) : Viewport :=
  let scale := clamp (prev.scale * 12/10) MIN_SCALE MAX_SCALE
  if scale = prev.scale then prev
  else
    { scale
      offsetX := if scale ≤ 1 then 0 else prev.offsetX
      offsetY := if scale ≤ 1 then 0 else prev.offsetY }

/-- `zoomOut`: step the scale down by 1.2×, clamped, same offset rule. -/
def zoomOut (prev : Viewport) : Viewport :=
  let scale := clamp (prev.scale / (12/10)) MIN_SCALE MAX_SCALE
  if scale = prev.scale then prev
  else
    { scale
      offsetX := if scale ≤ 1 then 0 else prev.offsetX
      offsetY := if scale ≤ 1 then 0 else prev.offsetY }

/-- `resetZoom`: back to the identity viewport. -/
def resetZoom : Viewport :=
  { scale := 1, offsetX := 0, offsetY := 0 }

/-! ## Eraser tool (`tools/EraserTool.ts`) -/

/-- Consecutive point pairs of a stroke: the segments tested by the
eraser's `for (let i = 0; i < points.length - 1; i += 1)` loop. -/
def consecutivePairs : List StrokePoint → List (StrokePoint × StrokePoint)
  | a :: b :: rest => (a, b) :: consecutivePairs (b :: rest)
  | _ => []

/-- The eraser's segment loop: some consecutive-point segment of the
stroke lies within `radius` of the eraser point. -/
def segmentsHit (point : StrokePoint) (points : List StrokePoint) (radius : ℚ) : Bool :=
  (consecutivePairs points).any fun e =>
    sqrtLe (distanceSqPointToSegment point e.1 e.2) radius

/-- The eraser's single-point fallback: a one-point stroke within
`radius` of the eraser point. -/
def singlePointHit (point : StrokePoint) (points : List StrokePoint) (radius : ℚ) : Bool :=
  match points with
  | [p] => sqrtLe (distanceSq point p) radius
  | _ => false

/-- `EraserTool.getStrokesAtPoint`: for every non-eraser stroke not in
the gesture's removed set, report a hit when some segment is within
`(size/2)/viewportScale` of the point, or — for a single-point stroke —
the point itself is. -/
def getStrokesAtPoint (eraserSize viewportScale : ℚ) (removedStrokeIds : List String)
    (point : StrokePoint) (strokes : List Stroke) : List String :=
  let radius := eraserSize / 2 / viewportScale
  strokes.filterMap fun stroke =>
    if stroke.tool = .eraser then none
    else if stroke.id ∈ removedStrokeIds then none
    else if segmentsHit point stroke.points radius ||
        singlePointHit point stroke.points radius then some stroke.id
    else none

/-- Modelled from the spec's wording of the eraser hit test, to compare
with `getStrokesAtPoint`: a stroke is hit iff it is not an eraser-tool
stroke, is not already removed in this gesture, and either some
consecutive-point segment is within `(size/2)/viewportScale` of the
eraser point or the stroke is a single point within that radius. -/
def eraserHitSpec (eraserSize viewportScale : ℚ) (removedStrokeIds : List String)
    (point : StrokePoint) (stroke : Stroke) : Bool :=
  let radius := eraserSize / 2 / viewportScale
  !(decide (stroke.tool = .eraser)) &&
    !(decide (stroke.id ∈ removedStrokeIds)) &&
    (segmentsHit point stroke.points radius || singlePointHit point stroke.points radius)

/-! ## Pen / highlighter capture (`HighlighterTool` in `types/note.ts`) -/

/-- `ToolSettings` from `tools/types.ts`. -/
structure ToolSettings where
  color : String
  size : ℚ
  opacity : Option ℚ
deriving DecidableEq, Repr

/-- `HighlighterTool.handlePointerDown`: start a one-point stroke seeded
with the down point (fresh id supplied by the caller). -/
def hlPointerDown (settings : ToolSettings) (newId : String) (point : StrokePoint) :
    Option Stroke :=
  some
    { id := newId
      tool := .highlighter
      points := [point]
      color := settings.color
      size := settings.size
      opacity := settings.opacity.getD (35/100) }

/-- `HighlighterTool.handlePointerMove`: no-op without an active stroke;
drop points closer than 2 units to the last recorded point; insert the
geometric midpoint first when the gap exceeds 5 units. -/
def hlPointerMove (point : StrokePoint) (current : Option Stroke) : Option Stroke :=
  match current with
  | none => none
  | some stroke =>
      match stroke.points.getLast? with
      | none => some stroke
      | some lastPoint =>
          let dSq := distanceSq lastPoint point
          if sqrtLt dSq 2 then some stroke
          else if !(sqrtLe dSq 5) then
            let midpoint : StrokePoint :=
              ⟨(lastPoint.x + point.x) / 2, (lastPoint.y + point.y) / 2⟩
            some { stroke with points := stroke.points ++ [midpoint, point] }
          else some { stroke with points := stroke.points ++ [point] }

/-- `HighlighterTool.handlePointerUp`: commit the stroke to the page's
list iff it has at least one point; always clear the current stroke. -/
def hlPointerUp (current : Option Stroke) (committed : List Stroke) :
    Option Stroke × List Stroke :=
  match current with
  | some stroke =>
      if stroke.points.length > 0 then (none, committed ++ [stroke])
      else (none, committed)
  | none => (none, committed)

/-! ## Selector tool (`SelectorTool` in `types/note.ts`) -/

/-- Axis-aligned bounding box. -/
structure BoundingBox where
  minX : ℚ
  minY : ℚ
  maxX : ℚ
  maxY : ℚ
deriving DecidableEq, Repr

/-- `SelectionState` from `types/note.ts`. -/
structure SelectionState where
  polygon : List StrokePoint
  strokeIds : List String
  boundingBox : BoundingBox
  isDragging : Bool
  dragStart : Option StrokePoint
  dragDelta : Option StrokePoint
  dragOffset : Option StrokePoint
deriving DecidableEq, Repr

/-- The selector's private fields: the in-progress lasso path and the
current selection. -/
structure SelectorState where
  selectionPath : List StrokePoint
  selection : Option SelectionState
deriving DecidableEq, Repr

/-- `Math.min` folded from the float `Infinity` sentinel, with `none`
standing for `Infinity`. -/
def minFromInf (acc : Option ℚ) (x : ℚ) : Option ℚ :=
  match acc with
  | none => some x
  | some a => some (min a x)

/-- `Math.max` folded from `-Infinity`, with `none` standing for it. -/
def maxFromNegInf (acc : Option ℚ) (x : ℚ) : Option ℚ :=
  match acc with
  | none => some x
  | some a => some (max a x)

/-- Modelled from the spec's wording of free-draw selection, to compare
with `finalizeSelection`: a stroke is selected iff it is not an
eraser-tool stroke and at least one of its points lies inside the lasso
polygon by the even-odd test. -/
def lassoSelectsSpec (path : List StrokePoint) (stroke : Stroke) : Bool :=
  !(decide (stroke.tool = .eraser)) && stroke.points.any fun p => isPointInPolygon p path

/-- The points the bounding-box loops of `finalizeSelection` visit: all
points of every stroke whose id was selected, in stroke order. -/
def selectedPoints (strokes : List Stroke) (selectedIds : List String) :
    List StrokePoint :=
  (strokes.filter (fun stroke => stroke.id ∈ selectedIds)).flatMap (·.points)

/-- The bounding-box computation of `finalizeSelection`: fold min/max
over all points of all selected strokes, starting from `±Infinity`.
Returns `none` when no point was visited (all accumulators still at
their sentinels). -/
def selectionBoundingBox (strokes : List Stroke) (selectedIds : List String) :
    Option BoundingBox :=
  let pts := selectedPoints strokes selectedIds
  match pts.foldl (fun acc p => minFromInf acc p.x) none,
      pts.foldl (fun acc p => minFromInf acc p.y) none,
      pts.foldl (fun acc p => maxFromNegInf acc p.x) none,
      pts.foldl (fun acc p => maxFromNegInf acc p.y) none with
  | some a, some b, some c, some d => some ⟨a, b, c, d⟩
  | _, _, _, _ => none

/-- `SelectorTool.finalizeSelection`: fewer than 3 path points cancels
silently; otherwise select every non-eraser stroke with some point
inside the path polygon, compute the bounding box, and publish the
selection iff at least one stroke was selected.  Returns the updated
selector state. -/
def finalizeSelection (strokes : List Stroke) (st : SelectorState) : SelectorState :=
  if st.selectionPath.length < 3 then
    { st with selectionPath := [] }
  else
    let path := st.selectionPath
    let selectedIds :=
      strokes.filterMap fun stroke =>
        if stroke.tool = .eraser then none
        else if stroke.points.any (fun p => isPointInPolygon p path) then some stroke.id
        else none
    let selection :=
      if selectedIds.length > 0 then
        match selectionBoundingBox strokes selectedIds with
        | some box =>
            some
              { polygon := st.selectionPath
                strokeIds := selectedIds
                boundingBox := box
                isDragging := false
                dragStart := none
                dragDelta := none
                dragOffset := none }
        | none => st.selection
      else st.selection
    { selectionPath := [], selection := selection }

/-- `SelectorTool.handlePointerDown`: inside the (delta-adjusted) box of
an existing selection, start dragging; otherwise clear the selection and
start a fresh lasso path seeded with the down point. -/
def selPointerDown (point : StrokePoint) (st : SelectorState) : SelectorState :=
  match st.selection with
  | some sel =>
      let delta := sel.dragDelta.getD ⟨0, 0⟩
      let adjustedMinX := sel.boundingBox.minX + delta.x
      let adjustedMaxX := sel.boundingBox.maxX + delta.x
      let adjustedMinY := sel.boundingBox.minY + delta.y
      let adjustedMaxY := sel.boundingBox.maxY + delta.y
      if point.x ≥ adjustedMinX ∧ point.x ≤ adjustedMaxX ∧
          point.y ≥ adjustedMinY ∧ point.y ≤ adjustedMaxY then
        { st with
            selection :=
              some
                { sel with
                    isDragging := true
                    dragStart := some point
                    dragDelta := some ⟨0, 0⟩
                    dragOffset := some ⟨point.x - adjustedMinX, point.y - adjustedMinY⟩ } }
      else { selectionPath := [point], selection := none }
  | none => { selectionPath := [point], selection := none }

/-- `SelectorTool.handlePointerMove`: while dragging, recompute the drag
delta from the live pointer minus the pointer-to-box offset (visual
only, no stroke mutation); otherwise append to the lasso path. -/
def selPointerMove (point : StrokePoint) (st : SelectorState) : SelectorState :=
  match st.selection with
  | some sel =>
      if sel.isDragging ∧ sel.dragStart.isSome then
        match sel.dragStart with
        | some dragStart =>
            let offset := sel.dragOffset.getD
              ⟨dragStart.x - sel.boundingBox.minX, dragStart.y - sel.boundingBox.minY⟩
            let nextMinX := point.x - offset.x
            let nextMinY := point.y - offset.y
            { st with
                selection :=
                  some
                    { sel with
                        dragDelta :=
                          some ⟨nextMinX - sel.boundingBox.minX,
                            nextMinY - sel.boundingBox.minY⟩ } }
        | none => st
      else if st.selectionPath.length > 0 then
        { st with selectionPath := st.selectionPath ++ [point] }
      else st
  | none =>
      if st.selectionPath.length > 0 then
        { st with selectionPath := st.selectionPath ++ [point] }
      else st

/-! ## Workspace history callbacks (`CanvasWorkspace.tsx`) -/

/-- The workspace state the selector's callbacks touch: the live stroke
list and the active page's history buffers. -/
structure WorkspaceState where
  strokes : List Stroke
  history : List (List Stroke)
  future : List (List Stroke)
deriving DecidableEq, Repr

/-- `pushHistorySnapshot`: push a deep copy of the live strokes onto the
page's `history` stack and clear its `future` stack. -/
def pushHistorySnapshot (w : WorkspaceState) : WorkspaceState :=
  { w with history := cloneStrokes w.strokes :: w.history, future := [] }

/-- `commitStroke` in `CanvasWorkspace.tsx`: one history snapshot, then
append the committed stroke to the live list. -/
def wsCommitStroke (stroke : Stroke) (w : WorkspaceState) : WorkspaceState :=
  let w' := pushHistorySnapshot w
  { w' with strokes := w'.strokes ++ [stroke] }

/-- `handleUndo` in `CanvasWorkspace.tsx` (the active page's buffers):
no-op on an empty `history`, otherwise pop into the live list and push
the old live list onto `future`. -/
def wsUndo (w : WorkspaceState) : WorkspaceState :=
  match w.history with
  | [] => w
  | previous :: rest =>
      { strokes := cloneStrokes previous
        history := rest
        future := cloneStrokes w.strokes :: w.future }

/-- `handleRedo` in `CanvasWorkspace.tsx`: mirror of `wsUndo`. -/
def wsRedo (w : WorkspaceState) : WorkspaceState :=
  match w.future with
  | [] => w
  | next :: rest =>
      { strokes := cloneStrokes next
        history := cloneStrokes w.strokes :: w.history
        future := rest }

/-- The `onStrokesMove` callback wired into the `SelectorTool`: one
history snapshot, then every selected stroke replaced by its translate. -/
def onStrokesMove (strokeIds : List String) (delta : StrokePoint)
    (w : WorkspaceState) : WorkspaceState :=
  let w' := pushHistorySnapshot w
  { w' with
      strokes := w'.strokes.map fun stroke =>
        if stroke.id ∈ strokeIds then translateStroke stroke delta else stroke }

/-- `SelectorTool.handlePointerUp`: releasing a drag fires
`onStrokesMove` only when the accumulated delta is nonzero, translates
the selection's polygon and bounding box by the delta, and clears the
transient drag fields; otherwise a pending lasso path is finalized.
Returns the selector state together with the workspace after the
callback (unchanged when no callback fired). -/
def selPointerUp (strokes : List Stroke) (st : SelectorState) (w : WorkspaceState) :
    SelectorState × WorkspaceState :=
  match st.selection with
  | some sel =>
      if sel.isDragging ∧ sel.dragStart.isSome then
        let point := sel.dragDelta
        let w' :=
          match point with
          | some d => if d.x ≠ 0 ∨ d.y ≠ 0 then onStrokesMove sel.strokeIds d w else w
          | none => w
        let dx := (point.getD ⟨0, 0⟩).x
        let dy := (point.getD ⟨0, 0⟩).y
        let updatedSelection : SelectionState :=
          { sel with
              polygon := sel.polygon.map fun p => ⟨p.x + dx, p.y + dy⟩
              boundingBox :=
                { minX := sel.boundingBox.minX + dx
                  minY := sel.boundingBox.minY + dy
                  maxX := sel.boundingBox.maxX + dx
                  maxY := sel.boundingBox.maxY + dy }
              isDragging := false
              dragStart := none
              dragDelta := none
              dragOffset := none }
        ({ st with selection := some updatedSelection }, w')
      else if st.selectionPath.length > 0 then (finalizeSelection strokes st, w)
      else (st, w)
  | none =>
      if st.selectionPath.length > 0 then (finalizeSelection strokes st, w)
      else (st, w)

/-! ## Theorems -/

/-- Cloning a stroke list is the identity on immutable lists: snapshots
are exact copies, unaffected by later mutations of the live list. -/
theorem cloneStrokes_eq (strokes : List Stroke) : cloneStrokes strokes = strokes := by
  simp only [cloneStrokes]
  exact List.map_id' strokes

theorem polygonEdges_nil : polygonEdges [] = [] := rfl

theorem polygonEdges_single (a : StrokePoint) : polygonEdges [a] = [(a, a)] := rfl

theorem polygonEdges_pair (a b : StrokePoint) : polygonEdges [a, b] = [(a, b), (b, a)] := rfl

theorem polygonEdges_quad (a b c d : StrokePoint) :
    polygonEdges [a, b, c, d] = [(a, d), (b, a), (c, b), (d, c)] := rfl

/-- The ray-casting crossing condition is symmetric in the edge's two
endpoints: for a 2-vertex "polygon" both loop iterations test the same
geometric edge, so their crossings cancel. -/
theorem edgeCrosses_swap (p a b : StrokePoint) : edgeCrosses p a b = edgeCrosses p b a := by
  by_cases hy : a.y = b.y
  · simp [edgeCrosses, hy]
  · have h1 : b.y - a.y ≠ 0 := sub_ne_zero.mpr (Ne.symm hy)
    have h2 : a.y - b.y ≠ 0 := sub_ne_zero.mpr hy
    have key : (b.x - a.x) * (p.y - a.y) / (b.y - a.y) + a.x
        = (a.x - b.x) * (p.y - b.y) / (a.y - b.y) + b.x := by
      field_simp
      ring
    by_cases hA : a.y > p.y <;> by_cases hB : b.y > p.y <;>
      simp [edgeCrosses, hA, hB, key]

/-- **C1**: starting from stroke list `S0`, committing to reach `S1` and
then `S2`, two undos restore exactly `S0` (with the original stacks
back), two redos then restore exactly `S2` (the full post-commit state);
undo and redo are no-ops on empty stacks (both in the `useCanvasHistory`
hook and in the workspace's per-page buffers); and any new commit clears
the redo stack, so a redo right after a commit is a no-op.  The restored
lists are exact copies of the earlier states. -/
theorem undo_redo_symmetry :
    (∀ (S0 : List Stroke) (h f : List (List Stroke))
        (u1 u2 : List Stroke → List Stroke),
      undo (undo (commitStrokes u2 (commitStrokes u1 ⟨S0, h, f⟩))) =
        ⟨S0, h, [u1 S0, u2 (u1 S0)]⟩ ∧
      redo (redo (undo (undo (commitStrokes u2 (commitStrokes u1 ⟨S0, h, f⟩))))) =
        commitStrokes u2 (commitStrokes u1 ⟨S0, h, f⟩) ∧
      (commitStrokes u2 (commitStrokes u1 ⟨S0, h, f⟩)).strokes = u2 (u1 S0)) ∧
    (∀ (s : List Stroke) (f : List (List Stroke)), undo ⟨s, [], f⟩ = ⟨s, [], f⟩) ∧
    (∀ (s : List Stroke) (h : List (List Stroke)), redo ⟨s, h, []⟩ = ⟨s, h, []⟩) ∧
    (∀ (st : HistoryState) (u : List Stroke → List Stroke),
      redo (commitStrokes u st) = commitStrokes u st) ∧
    (∀ (w : WorkspaceState) (s : Stroke), wsRedo (wsCommitStroke s w) = wsCommitStroke s w) ∧
    (∀ (s : List Stroke) (f : List (List Stroke)), wsUndo ⟨s, [], f⟩ = ⟨s, [], f⟩) ∧
    (∀ (s : List Stroke) (h : List (List Stroke)), wsRedo ⟨s, h, []⟩ = ⟨s, h, []⟩) := by
  refine ⟨fun S0 h f u1 u2 => ?_, fun s f => ?_, fun s h => ?_, fun st u => ?_,
    fun w s => ?_, fun s f => ?_, fun s h => ?_⟩ <;>
    simp [commitStrokes, undo, redo, wsCommitStroke, wsUndo, wsRedo,
      pushHistorySnapshot, cloneStrokes_eq]

/-- **C3**: `toCanvasPoint` computes
`modelPoint = (clientPoint − containerOrigin − offset) / scale` (the
bounding rect's corner being the container origin shifted by the offset,
per the CSS `matrix(scale, 0, 0, scale, offsetX, offsetY)` transform),
and for every viewport with `MIN_SCALE ≤ scale ≤ MAX_SCALE` the mapping
back through `clientPoint = modelPoint × scale + offset + containerOrigin`
returns the client point exactly. -/
theorem coordinate_round_trip (v : Viewport) (containerLeft containerTop clientX clientY : ℚ)
    (hmin : MIN_SCALE ≤ v.scale) (_hmax : v.scale ≤ MAX_SCALE) :
    toCanvasPoint clientX clientY (rectLeftOf containerLeft v) (rectTopOf containerTop v)
        v.scale
      = ⟨(clientX - containerLeft - v.offsetX) / v.scale,
          (clientY - containerTop - v.offsetY) / v.scale⟩ ∧
    modelToClient
        (toCanvasPoint clientX clientY (rectLeftOf containerLeft v) (rectTopOf containerTop v)
          v.scale) v containerLeft containerTop
      = ⟨clientX, clientY⟩ := by
  have hs : v.scale ≠ 0 := by
    have h6 : (0 : ℚ) < 6/10 := by norm_num
    have := lt_of_lt_of_le h6 (by simpa [MIN_SCALE] using hmin)
    exact ne_of_gt this
  constructor
  · simp only [toCanvasPoint, rectLeftOf, rectTopOf, StrokePoint.mk.injEq]
    constructor <;> ring_nf
  · simp only [modelToClient, toCanvasPoint, rectLeftOf, rectTopOf, StrokePoint.mk.injEq]
    constructor <;> field_simp <;> ring

/-- Witness for C3 at `scale = 2`, offset `(4, 6)`, container origin
`(3, 5)`, client point `(9, 11)`. -/
theorem coordinate_round_trip_witness :
    MIN_SCALE ≤ (⟨2, 4, 6⟩ : Viewport).scale ∧ (⟨2, 4, 6⟩ : Viewport).scale ≤ MAX_SCALE ∧
    modelToClient
        (toCanvasPoint 9 11 (rectLeftOf 3 ⟨2, 4, 6⟩) (rectTopOf 5 ⟨2, 4, 6⟩)
          (⟨2, 4, 6⟩ : Viewport).scale) ⟨2, 4, 6⟩ 3 5
      = ⟨9, 11⟩ :=
  ⟨by norm_num [MIN_SCALE], by norm_num [MAX_SCALE],
    (coordinate_round_trip ⟨2, 4, 6⟩ 3 5 9 11 (by norm_num [MIN_SCALE])
      (by norm_num [MAX_SCALE])).2⟩

/-- **C10**: releasing a selection drag whose accumulated delta is
exactly `(0,0)` fires no strokes-moved callback — the stroke list and
both history stacks are untouched — and only clears the transient drag
fields, keeping the polygon and bounding box at their prior values. -/
theorem zero_delta_drag_release
    (polygon : List StrokePoint) (ids : List String) (box : BoundingBox)
    (w : WorkspaceState) (p : StrokePoint) (o : Option StrokePoint)
    (sp : List StrokePoint) (strokes : List Stroke) :
    selPointerUp strokes ⟨sp, some ⟨polygon, ids, box, true, some p, some ⟨0, 0⟩, o⟩⟩ w
      = (⟨sp, some ⟨polygon, ids, box, false, none, none, none⟩⟩, w) := by
  have hpoly : polygon.map (fun q : StrokePoint => (⟨q.x + 0, q.y + 0⟩ : StrokePoint))
      = polygon := by
    simp
  simp [selPointerUp, hpoly]

/-- **C8**: the even-odd ray-casting test returns `false` for every
polygon with fewer than 3 vertices (for 2 vertices the two traversals of
the single geometric edge cancel), and on the square
`[(0,0),(10,0),(10,10),(0,10)]` it reports `(5,5)` inside, `(15,5)`
outside, and gives the single deterministic answer `true` for the
on-edge point `(0,5)`. -/
theorem point_in_polygon_test :
    (∀ (p : StrokePoint) (polygon : List StrokePoint),
      polygon.length < 3 → isPointInPolygon p polygon = false) ∧
    isPointInPolygon ⟨5, 5⟩ [⟨0, 0⟩, ⟨10, 0⟩, ⟨10, 10⟩, ⟨0, 10⟩] = true ∧
    isPointInPolygon ⟨15, 5⟩ [⟨0, 0⟩, ⟨10, 0⟩, ⟨10, 10⟩, ⟨0, 10⟩] = false ∧
    isPointInPolygon ⟨0, 5⟩ [⟨0, 0⟩, ⟨10, 0⟩, ⟨10, 10⟩, ⟨0, 10⟩] = true := by
  refine ⟨fun p polygon hlen => ?_,
    by norm_num [isPointInPolygon, polygonEdges_quad, edgeCrosses],
    by norm_num [isPointInPolygon, polygonEdges_quad, edgeCrosses],
    by norm_num [isPointInPolygon, polygonEdges_quad, edgeCrosses]⟩
  match polygon with
  | [] => rfl
  | [a] =>
      have ha : edgeCrosses p a a = false := by simp [edgeCrosses]
      simp [isPointInPolygon, polygonEdges_single, ha]
  | [a, b] =>
      have hswap : edgeCrosses p b a = edgeCrosses p a b := (edgeCrosses_swap p a b).symm
      rw [isPointInPolygon, polygonEdges_pair]
      cases hc : edgeCrosses p a b <;> simp [hc, hswap]
  | a :: b :: c :: rest => simp at hlen; omega

/-- Witness for C8's quantified part at a 1-vertex polygon. -/
theorem point_in_polygon_test_witness :
    ([⟨1, 2⟩] : List StrokePoint).length < 3 ∧
      isPointInPolygon ⟨3, 4⟩ [⟨1, 2⟩] = false :=
  ⟨by decide, point_in_polygon_test.1 ⟨3, 4⟩ [⟨1, 2⟩] (by decide)⟩

theorem foldl_minFromInf_some (l : List ℚ) (x : ℚ) :
    l.foldl minFromInf (some x) = some (l.foldl min x) := by
  induction l generalizing x with
  | nil => rfl
  | cons a t ih => simp [minFromInf, ih]

theorem foldl_maxFromNegInf_some (l : List ℚ) (x : ℚ) :
    l.foldl maxFromNegInf (some x) = some (l.foldl max x) := by
  induction l generalizing x with
  | nil => rfl
  | cons a t ih => simp [maxFromNegInf, ih]

/-- Folding `Math.min` from the `Infinity` sentinel over a projected
point list computes the minimum of the projections. -/
theorem foldl_minFromInf_proj (f : StrokePoint → ℚ) (pts : List StrokePoint) :
    pts.foldl (fun acc p => minFromInf acc (f p)) none = (pts.map f).min? := by
  cases pts with
  | nil => rfl
  | cons a t =>
      show t.foldl (fun acc p => minFromInf acc (f p)) (minFromInf none (f a))
        = ((a :: t).map f).min?
      rw [show minFromInf none (f a) = some (f a) from rfl, ← List.foldl_map f minFromInf,
        foldl_minFromInf_some]
      rfl

/-- Folding `Math.max` from the `-Infinity` sentinel over a projected
point list computes the maximum of the projections. -/
theorem foldl_maxFromNegInf_proj (f : StrokePoint → ℚ) (pts : List StrokePoint) :
    pts.foldl (fun acc p => maxFromNegInf acc (f p)) none = (pts.map f).max? := by
  cases pts with
  | nil => rfl
  | cons a t =>
      show t.foldl (fun acc p => maxFromNegInf acc (f p)) (maxFromNegInf none (f a))
        = ((a :: t).map f).max?
      rw [show maxFromNegInf none (f a) = some (f a) from rfl, ← List.foldl_map f maxFromNegInf,
        foldl_maxFromNegInf_some]
      rfl

/-- The bounding box published by `finalizeSelection` is exactly the
min/max of the coordinates over all points of all selected strokes. -/
theorem selectionBoundingBox_spec (strokes : List Stroke) (ids : List String)
    (box : BoundingBox) (h : selectionBoundingBox strokes ids = some box) :
    some box.minX = ((selectedPoints strokes ids).map StrokePoint.x).min? ∧
    some box.minY = ((selectedPoints strokes ids).map StrokePoint.y).min? ∧
    some box.maxX = ((selectedPoints strokes ids).map StrokePoint.x).max? ∧
    some box.maxY = ((selectedPoints strokes ids).map StrokePoint.y).max? := by
  rw [selectionBoundingBox] at h
  simp only [foldl_minFromInf_proj, foldl_maxFromNegInf_proj] at h
  cases hpts : selectedPoints strokes ids with
  | nil => rw [hpts] at h; exact absurd h (by simp [List.min?, List.max?])
  | cons a t =>
      rw [hpts] at h
      simp only [List.map_cons, List.min?, List.max?] at h ⊢
      cases h
      exact ⟨rfl, rfl, rfl, rfl⟩

/-- When at least one point was visited, the bounding-box fold produces
a box (no accumulator is left at its `Infinity` sentinel). -/
theorem selectionBoundingBox_isSome (strokes : List Stroke) (ids : List String)
    (h : selectedPoints strokes ids ≠ []) :
    (selectionBoundingBox strokes ids).isSome := by
  rw [selectionBoundingBox]
  simp only [foldl_minFromInf_proj, foldl_maxFromNegInf_proj]
  cases hpts : selectedPoints strokes ids with
  | nil => exact absurd hpts h
  | cons a t => simp [List.min?, List.max?]

/-- The stroke-id list built by `finalizeSelection`'s `filterMap` is
exactly the ids of the strokes satisfying the spec's lasso predicate. -/
theorem lasso_selectedIds (path : List StrokePoint) (strokes : List Stroke) :
    (strokes.filterMap fun stroke =>
        if stroke.tool = .eraser then none
        else if stroke.points.any (fun p => isPointInPolygon p path) then some stroke.id
        else none)
      = (strokes.filter (lassoSelectsSpec path)).map Stroke.id := by
  induction strokes with
  | nil => rfl
  | cons s rest ih =>
      by_cases h1 : s.tool = .eraser
      · have hf : (if s.tool = .eraser then none
            else if s.points.any (fun p => isPointInPolygon p path) then some s.id
            else none) = none := by
          rw [if_pos h1]
        have hne : lassoSelectsSpec path s = false := by simp [lassoSelectsSpec, h1]
        rw [List.filterMap_cons, hf, List.filter_cons, hne]
        simpa using ih
      · rcases h2 : (s.points.any fun p => isPointInPolygon p path) with _ | _
        · have hf : (if s.tool = .eraser then none
              else if s.points.any (fun p => isPointInPolygon p path) then some s.id
              else none) = none := by
            rw [if_neg h1, h2]
            simp
          have hne : lassoSelectsSpec path s = false := by simp [lassoSelectsSpec, h1, h2]
          rw [List.filterMap_cons, hf, List.filter_cons, hne]
          simpa using ih
        · have hf : (if s.tool = .eraser then none
              else if s.points.any (fun p => isPointInPolygon p path) then some s.id
              else none) = some s.id := by
            rw [if_neg h1, h2]
            simp
          have hyes : lassoSelectsSpec path s = true := by simp [lassoSelectsSpec, h1, h2]
          rw [List.filterMap_cons, hf, List.filter_cons, hyes]
          simpa using ih

/-- **C6**: finalizing a free-draw lasso on pointer-up with a path of
≥ 3 points selects exactly the non-eraser strokes with some point inside
the path polygon (even-odd test); the published bounding box is the
min/max over all points of all selected strokes; a selection is
published iff at least one stroke is selected; fewer than 3 accumulated
points cancels silently; the workspace is never touched. -/
theorem lasso_finalize (path : List StrokePoint) (strokes : List Stroke) (w : WorkspaceState) :
    (path.length < 3 → selPointerUp strokes ⟨path, none⟩ w = (⟨[], none⟩, w)) ∧
    (3 ≤ path.length →
      (selPointerUp strokes ⟨path, none⟩ w).2 = w ∧
      (selPointerUp strokes ⟨path, none⟩ w).1.selectionPath = [] ∧
      ((selPointerUp strokes ⟨path, none⟩ w).1.selection.isSome
        ↔ ∃ s ∈ strokes, lassoSelectsSpec path s = true) ∧
      (∀ sel, (selPointerUp strokes ⟨path, none⟩ w).1.selection = some sel →
        sel.polygon = path ∧
        sel.strokeIds = (strokes.filter (lassoSelectsSpec path)).map Stroke.id ∧
        sel.isDragging = false ∧
        some sel.boundingBox.minX
          = ((selectedPoints strokes sel.strokeIds).map StrokePoint.x).min? ∧
        some sel.boundingBox.minY
          = ((selectedPoints strokes sel.strokeIds).map StrokePoint.y).min? ∧
        some sel.boundingBox.maxX
          = ((selectedPoints strokes sel.strokeIds).map StrokePoint.x).max? ∧
        some sel.boundingBox.maxY
          = ((selectedPoints strokes sel.strokeIds).map StrokePoint.y).max?)) := by
  constructor
  · intro hlt
    by_cases hp : path.length > 0
    · simp [selPointerUp, hp, finalizeSelection, hlt]
    · have hnil : path = [] := List.length_eq_zero.mp (by omega)
      subst hnil
      simp [selPointerUp]
  · intro hge
    have hp : path.length > 0 := by omega
    have hnot : ¬ path.length < 3 := by omega
    have hsel : selPointerUp strokes ⟨path, none⟩ w
        = (finalizeSelection strokes ⟨path, none⟩, w) := by
      simp [selPointerUp, hp]
    by_cases hex : ∃ s ∈ strokes, lassoSelectsSpec path s = true
    · obtain ⟨s, hs, hpred⟩ := hex
      have hsf : s ∈ strokes.filter (lassoSelectsSpec path) := List.mem_filter.mpr ⟨hs, hpred⟩
      have hid : s.id ∈ (strokes.filter (lassoSelectsSpec path)).map Stroke.id :=
        List.mem_map_of_mem Stroke.id hsf
      have hlen : ((strokes.filter (lassoSelectsSpec path)).map Stroke.id).length > 0 :=
        List.length_pos.mpr (List.ne_nil_of_mem hid)
      obtain ⟨pt, hptmem, hptin⟩ :
          ∃ pt ∈ s.points, isPointInPolygon pt path = true := by
        have := (Bool.and_eq_true _ _).mp hpred
        exact List.any_eq_true.mp this.2
      have hsfid : s ∈ strokes.filter
          (fun stroke =>
            stroke.id ∈ (strokes.filter (lassoSelectsSpec path)).map Stroke.id) := by
        refine List.mem_filter.mpr ⟨hs, ?_⟩
        exact decide_eq_true hid
      have hptsel : pt ∈ selectedPoints strokes
          ((strokes.filter (lassoSelectsSpec path)).map Stroke.id) := by
        rw [selectedPoints]
        exact List.mem_flatMap.mpr ⟨s, hsfid, hptmem⟩
      have hpts_ne : selectedPoints strokes
          ((strokes.filter (lassoSelectsSpec path)).map Stroke.id) ≠ [] :=
        List.ne_nil_of_mem hptsel
      obtain ⟨box, hbox⟩ := Option.isSome_iff_exists.mp
        (selectionBoundingBox_isSome _ _ hpts_ne)
      have hfin : finalizeSelection strokes ⟨path, none⟩
          = ⟨[], some
              { polygon := path
                strokeIds := (strokes.filter (lassoSelectsSpec path)).map Stroke.id
                boundingBox := box
                isDragging := false
                dragStart := none
                dragDelta := none
                dragOffset := none }⟩ := by
        rw [finalizeSelection]
        simp only [if_neg hnot, lasso_selectedIds, if_pos hlen, hbox]
      refine ⟨by rw [hsel], by rw [hsel, hfin], ?_, ?_⟩
      · rw [hsel, hfin]
        simp only [Option.isSome_some, true_iff]
        exact ⟨s, hs, hpred⟩
      · intro sel hselEq
        rw [hsel, hfin] at hselEq
        cases hselEq
        obtain ⟨b1, b2, b3, b4⟩ := selectionBoundingBox_spec _ _ _ hbox
        exact ⟨rfl, rfl, rfl, b1, b2, b3, b4⟩
    · have hfil : strokes.filter (lassoSelectsSpec path) = [] := by
        apply List.filter_eq_nil_iff.mpr
        intro a ha hcontra
        exact hex ⟨a, ha, hcontra⟩
      have hfin : finalizeSelection strokes ⟨path, none⟩ = ⟨[], none⟩ := by
        rw [finalizeSelection]
        simp only [if_neg hnot, lasso_selectedIds, hfil, List.map_nil, List.length_nil]
        simp
      refine ⟨by rw [hsel], by rw [hsel, hfin], ?_, ?_⟩
      · rw [hsel, hfin]
        simp only [Option.isSome_none, Bool.false_eq_true, false_iff]
        exact hex
      · intro sel hselEq
        rw [hsel, hfin] at hselEq
        cases hselEq

/-- Witness for C6: the short path `[(0,0)]` cancels silently, and the
square path selects the single pen stroke through `(5,5)`. -/
theorem lasso_finalize_witness :
    (([⟨0, 0⟩] : List StrokePoint).length < 3 ∧
      selPointerUp [] ⟨[⟨0, 0⟩], none⟩ ⟨[], [], []⟩ = (⟨[], none⟩, ⟨[], [], []⟩)) ∧
    (3 ≤ ([⟨0, 0⟩, ⟨10, 0⟩, ⟨10, 10⟩, ⟨0, 10⟩] : List StrokePoint).length ∧
      (selPointerUp
          [{ id := "s1", tool := .pen, color := "#000000", size := 4, opacity := 1,
             points := [⟨5, 5⟩] }]
          ⟨[⟨0, 0⟩, ⟨10, 0⟩, ⟨10, 10⟩, ⟨0, 10⟩], none⟩ ⟨[], [], []⟩).2 = ⟨[], [], []⟩) :=
  ⟨⟨by norm_num,
      (lasso_finalize [⟨0, 0⟩] [] ⟨[], [], []⟩).1 (by norm_num)⟩,
    ⟨by norm_num,
      ((lasso_finalize [⟨0, 0⟩, ⟨10, 0⟩, ⟨10, 10⟩, ⟨0, 10⟩]
          [{ id := "s1", tool := .pen, color := "#000000", size := 4, opacity := 1,
             points := [⟨5, 5⟩] }] ⟨[], [], []⟩).2 (by norm_num)).1⟩⟩

/-- One pointer-move during a drag: the drag delta is recomputed from
the live pointer minus the pointer-to-box offset; everything else in the
selector state is untouched, and the workspace is never consulted. -/
theorem selMove_drag (polygon : List StrokePoint) (ids : List String) (box : BoundingBox)
    (sp : List StrokePoint) (p v : StrokePoint) (d : Option StrokePoint) (o : StrokePoint) :
    selPointerMove v ⟨sp, some ⟨polygon, ids, box, true, some p, d, some o⟩⟩
      = ⟨sp, some ⟨polygon, ids, box, true, some p,
          some ⟨v.x - o.x - box.minX, v.y - o.y - box.minY⟩, some o⟩⟩ := by
  simp [selPointerMove]

/-- Any nonempty sequence of drag moves leaves the selector in a drag
state whose delta depends only on the final pointer position. -/
theorem selMove_foldl (polygon : List StrokePoint) (ids : List String) (box : BoundingBox)
    (sp : List StrokePoint) (p : StrokePoint) (o : StrokePoint) (d : Option StrokePoint)
    (qs : List StrokePoint) (q : StrokePoint) :
    (qs ++ [q]).foldl (fun st v => selPointerMove v st)
        ⟨sp, some ⟨polygon, ids, box, true, some p, d, some o⟩⟩
      = ⟨sp, some ⟨polygon, ids, box, true, some p,
          some ⟨q.x - o.x - box.minX, q.y - o.y - box.minY⟩, some o⟩⟩ := by
  induction qs generalizing d with
  | nil => simp [selMove_drag]
  | cons a t ih => rw [List.cons_append, List.foldl_cons, selMove_drag]; exact ih _

/-- **C7**: a full selection drag — pointer-down inside the bounding box
of a selection over ids, any number of pointer-moves, release at `q` —
shifts every point of every selected stroke by exactly
`(q.x − p.x, q.y − p.y)`, leaves non-selected strokes unchanged, shifts
the selection's polygon and bounding box by the same delta, clears the
drag fields, and pushes exactly one history snapshot for the whole drag
regardless of how many pointer-moves occurred. -/
theorem selection_drag_bake
    (polygon : List StrokePoint) (ids : List String) (box : BoundingBox)
    (w : WorkspaceState) (strokes : List Stroke) (p q : StrokePoint)
    (qs : List StrokePoint)
    (h1 : box.minX ≤ p.x) (h2 : p.x ≤ box.maxX)
    (h3 : box.minY ≤ p.y) (h4 : p.y ≤ box.maxY)
    (hne : ¬(q.x - p.x = 0 ∧ q.y - p.y = 0)) :
    (selPointerUp strokes
        ((qs ++ [q]).foldl (fun st v => selPointerMove v st)
          (selPointerDown p ⟨[], some ⟨polygon, ids, box, false, none, none, none⟩⟩))
        w).2.strokes
      = w.strokes.map (fun s =>
          if s.id ∈ ids then
            { s with points := s.points.map fun pt =>
                ⟨pt.x + (q.x - p.x), pt.y + (q.y - p.y)⟩ }
          else s) ∧
    (selPointerUp strokes
        ((qs ++ [q]).foldl (fun st v => selPointerMove v st)
          (selPointerDown p ⟨[], some ⟨polygon, ids, box, false, none, none, none⟩⟩))
        w).2.history
      = w.strokes :: w.history ∧
    (selPointerUp strokes
        ((qs ++ [q]).foldl (fun st v => selPointerMove v st)
          (selPointerDown p ⟨[], some ⟨polygon, ids, box, false, none, none, none⟩⟩))
        w).2.future
      = [] ∧
    (selPointerUp strokes
        ((qs ++ [q]).foldl (fun st v => selPointerMove v st)
          (selPointerDown p ⟨[], some ⟨polygon, ids, box, false, none, none, none⟩⟩))
        w).1.selection
      = some
          { polygon := polygon.map fun pt => ⟨pt.x + (q.x - p.x), pt.y + (q.y - p.y)⟩
            strokeIds := ids
            boundingBox := ⟨box.minX + (q.x - p.x), box.minY + (q.y - p.y),
              box.maxX + (q.x - p.x), box.maxY + (q.y - p.y)⟩
            isDragging := false
            dragStart := none
            dragDelta := none
            dragOffset := none } := by
  have hdown : selPointerDown p ⟨[], some ⟨polygon, ids, box, false, none, none, none⟩⟩
      = ⟨[], some ⟨polygon, ids, box, true, some p, some ⟨0, 0⟩,
          some ⟨p.x - box.minX, p.y - box.minY⟩⟩⟩ := by
    have hcond : p.x ≥ box.minX + (0 : ℚ) ∧ p.x ≤ box.maxX + 0 ∧
        p.y ≥ box.minY + (0 : ℚ) ∧ p.y ≤ box.maxY + 0 := by
      constructor
      · simpa using h1
      constructor
      · simpa using h2
      constructor
      · simpa using h3
      · simpa using h4
    simp only [selPointerDown, Option.getD_none]
    rw [if_pos hcond]
    norm_num
  rw [hdown, selMove_foldl]
  have hd : (⟨q.x - (p.x - box.minX) - box.minX, q.y - (p.y - box.minY) - box.minY⟩
      : StrokePoint) = ⟨q.x - p.x, q.y - p.y⟩ := by
    simp only [StrokePoint.mk.injEq]
    constructor <;> ring
  rw [hd]
  have hcb : q.x - p.x ≠ 0 ∨ q.y - p.y ≠ 0 := by
    by_contra hc
    push_neg at hc
    exact hne ⟨hc.1, hc.2⟩
  simp [selPointerUp, onStrokesMove, pushHistorySnapshot, cloneStrokes_eq,
    translateStroke, hcb]

/-- Witness for C7 at `p = (5,5)`, one intermediate move, release at
`(7,8)`, bounding box `(0,0)-(10,10)`, empty workspace. -/
theorem selection_drag_bake_witness :
    (⟨0, 0, 10, 10⟩ : BoundingBox).minX ≤ (⟨5, 5⟩ : StrokePoint).x ∧
    (⟨5, 5⟩ : StrokePoint).x ≤ (⟨0, 0, 10, 10⟩ : BoundingBox).maxX ∧
    (⟨5, 5⟩ : StrokePoint).y ≥ (⟨0, 0, 10, 10⟩ : BoundingBox).minY ∧
    (⟨5, 5⟩ : StrokePoint).y ≤ (⟨0, 0, 10, 10⟩ : BoundingBox).maxY ∧
    ¬((⟨7, 8⟩ : StrokePoint).x - (⟨5, 5⟩ : StrokePoint).x = 0 ∧
      (⟨7, 8⟩ : StrokePoint).y - (⟨5, 5⟩ : StrokePoint).y = 0) ∧
    (selPointerUp []
        ((([⟨6, 6⟩] : List StrokePoint) ++ ([⟨7, 8⟩] : List StrokePoint)).foldl
          (fun st v => selPointerMove v st)
          (selPointerDown ⟨5, 5⟩
            ⟨[], some ⟨[], ["a"], ⟨0, 0, 10, 10⟩, false, none, none, none⟩⟩))
        ⟨[], [], []⟩).1.selection
      = some
          { polygon := ([] : List StrokePoint).map fun pt =>
              ⟨pt.x + ((⟨7, 8⟩ : StrokePoint).x - (⟨5, 5⟩ : StrokePoint).x),
                pt.y + ((⟨7, 8⟩ : StrokePoint).y - (⟨5, 5⟩ : StrokePoint).y)⟩
            strokeIds := ["a"]
            boundingBox := ⟨0 + ((⟨7, 8⟩ : StrokePoint).x - (⟨5, 5⟩ : StrokePoint).x),
              0 + ((⟨7, 8⟩ : StrokePoint).y - (⟨5, 5⟩ : StrokePoint).y),
              10 + ((⟨7, 8⟩ : StrokePoint).x - (⟨5, 5⟩ : StrokePoint).x),
              10 + ((⟨7, 8⟩ : StrokePoint).y - (⟨5, 5⟩ : StrokePoint).y)⟩
            isDragging := false
            dragStart := none
            dragDelta := none
            dragOffset := none } :=
  ⟨by norm_num, by norm_num, by norm_num, by norm_num, by norm_num,
    (selection_drag_bake [] ["a"] ⟨0, 0, 10, 10⟩ ⟨[], [], []⟩ [] ⟨5, 5⟩ ⟨7, 8⟩ [⟨6, 6⟩]
        (by norm_num) (by norm_num) (by norm_num) (by norm_num) (by norm_num)).2.2.2⟩

/-- The result of a pinch move is the previous viewport (dead-zone), the
zoom arm, or the pan arm. -/
theorem pinchMove_cases (ps : PinchState) (prev : Viewport)
    (dist midX midY rectLeft rectTop : ℚ) :
    (pinchMove ps prev dist midX midY rectLeft rectTop).2 = prev ∨
    (pinchMove ps prev dist midX midY rectLeft rectTop).2
      = pinchZoomViewport ps prev dist midX midY rectLeft rectTop ∨
    (pinchMove ps prev dist midX midY rectLeft rectTop).2
      = pinchPanViewport ps prev (midX - ps.initialMidpointX) (midY - ps.initialMidpointY) := by
  rw [pinchMove]
  cases hg : ps.gestureType with
  | none =>
      by_cases c1 : |dist - ps.initialPinchDistance| > 12 ∧ dist ≥ MIN_FINGER_DISTANCE
      · simp only [if_pos c1]
        exact Or.inr (Or.inl trivial)
      · by_cases c2 : (midX - ps.initialMidpointX) ^ 2 + (midY - ps.initialMidpointY) ^ 2
            > 8 ^ 2
        · simp only [if_neg c1, if_pos c2]
          exact Or.inr (Or.inr trivial)
        · simp only [if_neg c1, if_neg c2]
          exact Or.inl trivial
  | some g => cases g <;> simp

/-- The clamped scale always lands in `[MIN_SCALE, MAX_SCALE]`. -/
theorem clamp_scale_bounds (v : ℚ) :
    MIN_SCALE ≤ clamp v MIN_SCALE MAX_SCALE ∧ clamp v MIN_SCALE MAX_SCALE ≤ MAX_SCALE := by
  constructor
  · exact le_max_left _ _
  · apply max_le
    · rw [MIN_SCALE, MAX_SCALE]
      norm_num
    · exact min_le_left _ _

/-- The zoom arm's scale stays in range: it is either the clamped next
scale or, in the near-boundary snap, `max 1 nextScale`. -/
theorem pinchZoomViewport_scale_bounds (ps : PinchState) (prev : Viewport)
    (dist midX midY rectLeft rectTop : ℚ) :
    MIN_SCALE ≤ (pinchZoomViewport ps prev dist midX midY rectLeft rectTop).scale ∧
    (pinchZoomViewport ps prev dist midX midY rectLeft rectTop).scale ≤ MAX_SCALE := by
  obtain ⟨hlo, hhi⟩ := clamp_scale_bounds
    (ps.initialScale *
      (dist / (if ps.initialDistance = 0 then NUMBER_EPSILON else ps.initialDistance)))
  rw [pinchZoomViewport]
  by_cases hb : pinchNextScale ps dist ≤ 105/100 ∧ prev.scale ≤ 105/100
  · rw [if_pos hb]
    constructor
    · calc MIN_SCALE ≤ (1 : ℚ) := by rw [MIN_SCALE]; norm_num
        _ ≤ max 1 (pinchNextScale ps dist) := le_max_left _ _
    · apply max_le
      · rw [MAX_SCALE]; norm_num
      · exact hhi
  · rw [if_neg hb]
    exact ⟨hlo, hhi⟩

/-- **C2**: the failing two-update pinch trace.  One pinch gesture from
the rest viewport `(1, 0, 0)` with the client midpoint fixed at
`(300, 300)` and container origin `0`; the rect arguments are coupled to
the currently applied viewport (`rect.left = containerLeft + offsetX`
under the CSS matrix transform, via `rectLeftOf`/`rectTopOf`).  The
first update (distance 200 → 400) locks the zoom, takes the anchored
branch and yields `(2, −300, −300)`; the baseline model point
`(300, 300)` still renders at the midpoint.  The second update of the
same gesture (distance 600) reads `rect.left = −300`, computes
`midCanvas = 600` instead of `300`, yields `(3, −1200, −1200)`, and the
baseline model point now renders at `(−300, −300)` — 600 px away from
the fingers, although the claim (and the code's own comment) says it
remains under the fixed midpoint. -/
theorem pinch_zoom_anchoring_failure :
    pinchMove ⟨200, 1, 0, 0, 300, 300, none, 200, 0, 0⟩ ⟨1, 0, 0⟩ 400 300 300
        (rectLeftOf 0 ⟨1, 0, 0⟩) (rectTopOf 0 ⟨1, 0, 0⟩)
      = (⟨200, 1, 0, 0, 300, 300, some .zoom, 200, 0, 0⟩, ⟨2, -300, -300⟩) ∧
    modelToClient ⟨300, 300⟩ ⟨2, -300, -300⟩ 0 0 = ⟨300, 300⟩ ∧
    (pinchMove ⟨200, 1, 0, 0, 300, 300, some .zoom, 200, 0, 0⟩ ⟨2, -300, -300⟩ 600 300 300
        (rectLeftOf 0 ⟨2, -300, -300⟩) (rectTopOf 0 ⟨2, -300, -300⟩)).2
      = ⟨3, -1200, -1200⟩ ∧
    modelToClient ⟨300, 300⟩ ⟨3, -1200, -1200⟩ 0 0 = ⟨-300, -300⟩ ∧
    modelToClient ⟨300, 300⟩ ⟨3, -1200, -1200⟩ 0 0 ≠ ⟨300, 300⟩ := by
  refine ⟨?_, ?_, ?_, ?_, ?_⟩
  · rw [pinchMove]
    rw [if_pos (by norm_num [MIN_FINGER_DISTANCE])]
    rw [pinchZoomViewport]
    rw [if_neg (by norm_num [pinchNextScale, clamp, MIN_SCALE, MAX_SCALE])]
    norm_num [pinchNextScale, clamp, MIN_SCALE, MAX_SCALE, rectLeftOf, rectTopOf]
  · norm_num [modelToClient]
  · have hm : (pinchMove ⟨200, 1, 0, 0, 300, 300, some .zoom, 200, 0, 0⟩ ⟨2, -300, -300⟩
        600 300 300 (rectLeftOf 0 ⟨2, -300, -300⟩) (rectTopOf 0 ⟨2, -300, -300⟩)).2
        = pinchZoomViewport ⟨200, 1, 0, 0, 300, 300, some .zoom, 200, 0, 0⟩ ⟨2, -300, -300⟩
            600 300 300 (rectLeftOf 0 ⟨2, -300, -300⟩) (rectTopOf 0 ⟨2, -300, -300⟩) := by
      rw [pinchMove]
    rw [hm, pinchZoomViewport]
    rw [if_neg (by norm_num [pinchNextScale, clamp, MIN_SCALE, MAX_SCALE])]
    norm_num [pinchNextScale, clamp, MIN_SCALE, MAX_SCALE, rectLeftOf, rectTopOf]
  · norm_num [modelToClient]
  · norm_num [modelToClient]

/-- **C9 (amended)**: every viewport-mutating operation keeps
`MIN_SCALE ≤ scale ≤ MAX_SCALE`; the snap-to-origin of the offset
happens in the wheel and pinch-zoom updates exactly when both the
previous and the new scale are ≤ 1.05 (wheel additionally snaps the
scale itself to 1), and in `zoomIn`/`zoomOut` when the scale changed and
the new scale is ≤ 1 — not whenever the scale returns below ~1.05. -/
theorem viewport_ops_invariant (prev : Viewport)
    (hmin : MIN_SCALE ≤ prev.scale) (hmax : prev.scale ≤ MAX_SCALE) :
    (∀ (ps : PinchState) (dist midX midY rectLeft rectTop : ℚ),
      MIN_SCALE ≤ (pinchMove ps prev dist midX midY rectLeft rectTop).2.scale ∧
      (pinchMove ps prev dist midX midY rectLeft rectTop).2.scale ≤ MAX_SCALE) ∧
    (∀ clientX clientY rectLeft rectTop zoomFactor : ℚ,
      MIN_SCALE ≤ (wheelViewport prev clientX clientY rectLeft rectTop zoomFactor).scale ∧
      (wheelViewport prev clientX clientY rectLeft rectTop zoomFactor).scale ≤ MAX_SCALE) ∧
    (∀ iX iY dX dY : ℚ,
      MIN_SCALE ≤ (middlePanViewport prev iX iY dX dY).scale ∧
      (middlePanViewport prev iX iY dX dY).scale ≤ MAX_SCALE) ∧
    (MIN_SCALE ≤ (zoomIn prev).scale ∧ (zoomIn prev).scale ≤ MAX_SCALE) ∧
    (MIN_SCALE ≤ (zoomOut prev).scale ∧ (zoomOut prev).scale ≤ MAX_SCALE) ∧
    (MIN_SCALE ≤ resetZoom.scale ∧ resetZoom.scale ≤ MAX_SCALE) ∧
    (∀ clientX clientY rectLeft rectTop zoomFactor : ℚ,
      clamp (prev.scale * zoomFactor) MIN_SCALE MAX_SCALE ≠ prev.scale →
      clamp (prev.scale * zoomFactor) MIN_SCALE MAX_SCALE ≤ 105/100 →
      prev.scale ≤ 105/100 →
      wheelViewport prev clientX clientY rectLeft rectTop zoomFactor = ⟨1, 0, 0⟩) ∧
    (∀ (ps : PinchState) (dist midX midY rectLeft rectTop : ℚ),
      ps.gestureType = some .zoom →
      pinchNextScale ps dist ≤ 105/100 → prev.scale ≤ 105/100 →
      (pinchMove ps prev dist midX midY rectLeft rectTop).2
        = ⟨max 1 (pinchNextScale ps dist), 0, 0⟩) ∧
    (clamp (prev.scale / (12/10)) MIN_SCALE MAX_SCALE ≠ prev.scale →
      clamp (prev.scale / (12/10)) MIN_SCALE MAX_SCALE ≤ 1 →
      zoomOut prev = ⟨clamp (prev.scale / (12/10)) MIN_SCALE MAX_SCALE, 0, 0⟩) := by
  refine ⟨?_, ?_, ?_, ?_, ?_, ?_, ?_, ?_, ?_⟩
  · intro ps dist midX midY rectLeft rectTop
    rcases pinchMove_cases ps prev dist midX midY rectLeft rectTop with h | h | h
    · rw [h]; exact ⟨hmin, hmax⟩
    · rw [h]; exact pinchZoomViewport_scale_bounds _ _ _ _ _ _ _
    · rw [h, pinchPanViewport]
      by_cases c1 : |midX - ps.initialMidpointX| < 5 ∧ |midY - ps.initialMidpointY| < 5
      · rw [if_pos c1]; exact ⟨hmin, hmax⟩
      · rw [if_neg c1]
        by_cases c2 : prev.scale ≤ 105/100 ∧
            (midX - ps.initialMidpointX) ^ 2 + (midY - ps.initialMidpointY) ^ 2 < 20 ^ 2
        · rw [if_pos c2]; exact ⟨hmin, hmax⟩
        · rw [if_neg c2]; exact ⟨hmin, hmax⟩
  · intro clientX clientY rectLeft rectTop zoomFactor
    obtain ⟨hlo, hhi⟩ := clamp_scale_bounds (prev.scale * zoomFactor)
    rw [wheelViewport]
    by_cases c1 : clamp (prev.scale * zoomFactor) MIN_SCALE MAX_SCALE = prev.scale
    · rw [if_pos c1]; exact ⟨hmin, hmax⟩
    · rw [if_neg c1]
      by_cases c2 : clamp (prev.scale * zoomFactor) MIN_SCALE MAX_SCALE ≤ 105/100 ∧
          prev.scale ≤ 105/100
      · rw [if_pos c2]
        constructor
        · rw [MIN_SCALE]; norm_num
        · rw [MAX_SCALE]; norm_num
      · rw [if_neg c2]; exact ⟨hlo, hhi⟩
  · intro iX iY dX dY
    exact ⟨hmin, hmax⟩
  · rw [zoomIn]
    obtain ⟨hlo, hhi⟩ := clamp_scale_bounds (prev.scale * 12/10)
    by_cases c1 : clamp (prev.scale * 12/10) MIN_SCALE MAX_SCALE = prev.scale
    · rw [if_pos c1]; exact ⟨hmin, hmax⟩
    · rw [if_neg c1]; exact ⟨hlo, hhi⟩
  · rw [zoomOut]
    obtain ⟨hlo, hhi⟩ := clamp_scale_bounds (prev.scale / (12/10))
    by_cases c1 : clamp (prev.scale / (12/10)) MIN_SCALE MAX_SCALE = prev.scale
    · rw [if_pos c1]; exact ⟨hmin, hmax⟩
    · rw [if_neg c1]; exact ⟨hlo, hhi⟩
  · constructor
    · rw [MIN_SCALE, resetZoom]; norm_num
    · rw [MAX_SCALE, resetZoom]; norm_num
  · intro clientX clientY rectLeft rectTop zoomFactor hne hle hprev
    rw [wheelViewport, if_neg hne, if_pos ⟨hle, hprev⟩]
  · intro ps dist midX midY rectLeft rectTop hzoom hle hprev
    have hm : (pinchMove ps prev dist midX midY rectLeft rectTop).2
        = pinchZoomViewport ps prev dist midX midY rectLeft rectTop := by
      rw [pinchMove, hzoom]
    rw [hm, pinchZoomViewport, if_pos ⟨hle, hprev⟩]
  · intro hne hle
    rw [zoomOut, if_neg hne]
    simp only [if_pos hle]

/-- Witness for C9 at the identity viewport: a wheel zoom-out by ×1/2
takes the near-rest snap and lands on `(1, 0, 0)`, and `zoomOut` keeps
the scale inside `[MIN_SCALE, MAX_SCALE]`. -/
theorem viewport_ops_invariant_witness :
    (MIN_SCALE ≤ (⟨1, 0, 0⟩ : Viewport).scale ∧ (⟨1, 0, 0⟩ : Viewport).scale ≤ MAX_SCALE) ∧
    wheelViewport ⟨1, 0, 0⟩ 5 5 0 0 (1/2) = ⟨1, 0, 0⟩ ∧
    (MIN_SCALE ≤ (zoomOut ⟨1, 0, 0⟩).scale ∧ (zoomOut ⟨1, 0, 0⟩).scale ≤ MAX_SCALE) :=
  ⟨⟨by norm_num [MIN_SCALE], by norm_num [MAX_SCALE]⟩,
    (viewport_ops_invariant ⟨1, 0, 0⟩ (by norm_num [MIN_SCALE])
        (by norm_num [MAX_SCALE])).2.2.2.2.2.2.1 5 5 0 0 (1/2)
      (by norm_num [clamp, MIN_SCALE, MAX_SCALE])
      (by norm_num [clamp, MIN_SCALE, MAX_SCALE]) (by norm_num),
    (viewport_ops_invariant ⟨1, 0, 0⟩ (by norm_num [MIN_SCALE])
        (by norm_num [MAX_SCALE])).2.2.2.2.1⟩

/-- Counterexample to C9 as stated: a single wheel zoom-out from scale 3
brings the scale to `1 ≤ 1.05` through the anchored branch (the
previous scale was above 1.05), leaving the offset at `(20, 0)` rather
than snapped to the origin. -/
theorem viewport_snap_cex :
    wheelViewport ⟨3, 0, 0⟩ 30 0 0 0 (1/3) = ⟨1, 20, 0⟩ ∧
    (wheelViewport ⟨3, 0, 0⟩ 30 0 0 0 (1/3)).scale ≤ 105/100 ∧
    (wheelViewport ⟨3, 0, 0⟩ 30 0 0 0 (1/3)).offsetX ≠ 0 := by
  have hw : wheelViewport ⟨3, 0, 0⟩ 30 0 0 0 (1/3) = ⟨1, 20, 0⟩ := by
    rw [wheelViewport]
    rw [if_neg (by norm_num [clamp, MIN_SCALE, MAX_SCALE])]
    rw [if_neg (by norm_num [clamp, MIN_SCALE, MAX_SCALE])]
    norm_num [clamp, MIN_SCALE, MAX_SCALE, toCanvasPoint]
  rw [hw]
  norm_num

/-- **C4**: the eraser hit set contains exactly the strokes selected by
the spec's predicate — non-eraser, not yet removed, with a segment (or,
for a single-point stroke, the point) within `(size/2)/viewportScale` of
the eraser point — and the two-point stroke `(0,0)-(10,0)` is hit by an
eraser point at `(5, r−ε)` and missed at `(5, r+ε)`. -/
theorem eraser_hit_test :
    (∀ (eraserSize viewportScale : ℚ) (removed : List String) (p : StrokePoint)
        (strokes : List Stroke),
      getStrokesAtPoint eraserSize viewportScale removed p strokes
        = ((strokes.filter (eraserHitSpec eraserSize viewportScale removed p)).map
            Stroke.id)) ∧
    (∀ r ε : ℚ, 0 < ε → ε ≤ 2 * r →
      getStrokesAtPoint (2 * r) 1 [] ⟨5, r - ε⟩
          [{ id := "s1", tool := .pen, color := "#000000", size := 4, opacity := 1,
             points := [⟨0, 0⟩, ⟨10, 0⟩] }] = ["s1"] ∧
      getStrokesAtPoint (2 * r) 1 [] ⟨5, r + ε⟩
          [{ id := "s1", tool := .pen, color := "#000000", size := 4, opacity := 1,
             points := [⟨0, 0⟩, ⟨10, 0⟩] }] = []) := by
  constructor
  · intro eraserSize viewportScale removed p strokes
    induction strokes with
    | nil => rfl
    | cons s rest ih =>
        by_cases h1 : s.tool = .eraser
        · have hspec : eraserHitSpec eraserSize viewportScale removed p s = false := by
            simp [eraserHitSpec, h1]
          simp only [getStrokesAtPoint, List.filterMap_cons, List.filter_cons, h1, if_true,
            hspec, Bool.false_eq_true, if_false] at ih ⊢
          simpa [h1] using ih
        · by_cases h2 : s.id ∈ removed
          · have hspec : eraserHitSpec eraserSize viewportScale removed p s = false := by
              simp [eraserHitSpec, h2]
            simp only [getStrokesAtPoint, List.filterMap_cons, List.filter_cons] at ih ⊢
            simpa [h1, h2, hspec] using ih
          · by_cases h3 :
              (segmentsHit p s.points (eraserSize / 2 / viewportScale) ||
                singlePointHit p s.points (eraserSize / 2 / viewportScale)) = true
            · have hspec : eraserHitSpec eraserSize viewportScale removed p s = true := by
                simp [eraserHitSpec, h1, h2, h3]
              simp only [getStrokesAtPoint, List.filterMap_cons, List.filter_cons] at ih ⊢
              simpa [h1, h2, h3, hspec] using ih
            · have hspec : eraserHitSpec eraserSize viewportScale removed p s = false := by
                simp only [Bool.not_eq_true] at h3
                simp [eraserHitSpec, h1, h2, h3]
              simp only [getStrokesAtPoint, List.filterMap_cons, List.filter_cons] at ih ⊢
              simp only [Bool.not_eq_true] at h3
              simpa [h1, h2, h3, hspec] using ih
  · intro r ε hε h2r
    have hr : (2 * r / 2 / 1 : ℚ) = r := by ring
    have hrpos : 0 < r := by linarith
    have hseg : ∀ y : ℚ, distanceSqPointToSegment ⟨5, y⟩ ⟨0, 0⟩ ⟨10, 0⟩ = y ^ 2 := by
      intro y
      norm_num [distanceSqPointToSegment, distanceSq]
    constructor
    · have hhit : sqrtLe ((r - ε) ^ 2) r = true := by
        simp only [sqrtLe, Bool.and_eq_true, decide_eq_true_eq]
        exact ⟨le_of_lt hrpos, by nlinarith⟩
      simp [getStrokesAtPoint, segmentsHit, singlePointHit, consecutivePairs, hr, hseg,
        hhit]
    · have hmiss : sqrtLe ((r + ε) ^ 2) r = false := by
        simp only [sqrtLe, Bool.and_eq_false_iff, decide_eq_false_iff_not, not_le]
        right
        nlinarith
      simp [getStrokesAtPoint, segmentsHit, singlePointHit, consecutivePairs, hr, hseg,
        hmiss]

/-- Witness for C4's concrete eraser instance at radius `r = 2`,
`ε = 1`: the stroke is hit at `(5, 1)` and missed at `(5, 3)`. -/
theorem eraser_hit_test_witness :
    (0 : ℚ) < 1 ∧ (1 : ℚ) ≤ 2 * 2 ∧
    getStrokesAtPoint (2 * 2) 1 [] ⟨5, 2 - 1⟩
        [{ id := "s1", tool := .pen, color := "#000000", size := 4, opacity := 1,
           points := [⟨0, 0⟩, ⟨10, 0⟩] }] = ["s1"] ∧
    getStrokesAtPoint (2 * 2) 1 [] ⟨5, 2 + 1⟩
        [{ id := "s1", tool := .pen, color := "#000000", size := 4, opacity := 1,
           points := [⟨0, 0⟩, ⟨10, 0⟩] }] = [] :=
  ⟨by norm_num, by norm_num,
    (eraser_hit_test.2 2 1 (by norm_num) (by norm_num)).1,
    (eraser_hit_test.2 2 1 (by norm_num) (by norm_num)).2⟩

/-- **C5**: pointer-down seeds a one-point stroke with the down point;
pointer-move with no active stroke is a no-op (total, never throws);
pointer-move with an active stroke keeps the stroke unchanged below the
2-unit denoising distance, appends the point between 2 and 5 units, and
first inserts the geometric midpoint beyond 5 units; pointer-up with no
active stroke is a no-op, and pointer-up commits the stroke if and only
if it has at least one point — a 0-point stroke is never appended. -/
theorem pen_capture_state_machine :
    (∀ (settings : ToolSettings) (newId : String) (p : StrokePoint),
      (hlPointerDown settings newId p).map Stroke.points = some [p]) ∧
    (∀ p : StrokePoint, hlPointerMove p none = none) ∧
    (∀ (stroke : Stroke) (l p : StrokePoint), stroke.points.getLast? = some l →
      (distanceSq l p < 2 ^ 2 → hlPointerMove p (some stroke) = some stroke) ∧
      (2 ^ 2 ≤ distanceSq l p → distanceSq l p ≤ 5 ^ 2 →
        hlPointerMove p (some stroke)
          = some { stroke with points := stroke.points ++ [p] }) ∧
      (5 ^ 2 < distanceSq l p →
        hlPointerMove p (some stroke)
          = some { stroke with points :=
              stroke.points ++ [⟨(l.x + p.x) / 2, (l.y + p.y) / 2⟩, p] })) ∧
    (∀ committed : List Stroke, hlPointerUp none committed = (none, committed)) ∧
    (∀ (stroke : Stroke) (committed : List Stroke),
      (hlPointerUp (some stroke) committed).2 = committed ++ [stroke]
        ↔ 1 ≤ stroke.points.length) ∧
    (∀ (stroke : Stroke) (committed : List Stroke) (s : Stroke),
      s ∈ (hlPointerUp (some stroke) committed).2 → s ∈ committed ∨ 1 ≤ s.points.length) := by
  refine ⟨fun settings newId p => rfl, fun p => rfl,
    fun stroke l p hl => ⟨?_, ?_, ?_⟩, fun committed => rfl,
    fun stroke committed => ?_, fun stroke committed s hs => ?_⟩
  · intro hlt
    have h1 : sqrtLt (distanceSq l p) 2 = true := by
      simp only [sqrtLt, Bool.and_eq_true, decide_eq_true_eq]
      exact ⟨by norm_num, hlt⟩
    simp [hlPointerMove, hl, h1]
  · intro hge hle
    have h1 : sqrtLt (distanceSq l p) 2 = false := by
      simp only [sqrtLt, Bool.and_eq_false_iff, decide_eq_false_iff_not, not_lt]
      right
      exact hge
    have h2 : sqrtLe (distanceSq l p) 5 = true := by
      simp only [sqrtLe, Bool.and_eq_true, decide_eq_true_eq]
      exact ⟨by norm_num, hle⟩
    simp [hlPointerMove, hl, h1, h2]
  · intro hgt
    have h1 : sqrtLt (distanceSq l p) 2 = false := by
      simp only [sqrtLt, Bool.and_eq_false_iff, decide_eq_false_iff_not, not_lt]
      right
      calc (2 : ℚ) ^ 2 ≤ 5 ^ 2 := by norm_num
        _ ≤ distanceSq l p := le_of_lt hgt
    have h2 : sqrtLe (distanceSq l p) 5 = false := by
      simp only [sqrtLe, Bool.and_eq_false_iff, decide_eq_false_iff_not, not_le]
      right
      exact hgt
    simp [hlPointerMove, hl, h1, h2]
  · by_cases hlen : stroke.points.length > 0
    · simp [hlPointerUp, hlen]
      omega
    · simp [hlPointerUp, hlen]
      exact List.length_eq_zero.mp (by omega)
  · by_cases hlen : stroke.points.length > 0
    · simp only [hlPointerUp, if_pos hlen] at hs
      rcases List.mem_append.mp hs with h | h
      · exact Or.inl h
      · right
        rcases List.mem_singleton.mp h with rfl
        omega
    · simp only [hlPointerUp, if_neg hlen] at hs
      exact Or.inl hs

/-- Witness for C5's pointer-move branches: from a one-point stroke at
the origin, a move to `(3,0)` (distance 3) appends the point. -/
theorem pen_capture_state_machine_witness :
    ({ id := "a", tool := .highlighter, color := "#000000", size := 4, opacity := 1,
        points := [⟨0, 0⟩] } : Stroke).points.getLast? = some ⟨0, 0⟩ ∧
    (2 : ℚ) ^ 2 ≤ distanceSq ⟨0, 0⟩ ⟨3, 0⟩ ∧ distanceSq ⟨0, 0⟩ ⟨3, 0⟩ ≤ 5 ^ 2 ∧
    hlPointerMove ⟨3, 0⟩
        (some { id := "a", tool := .highlighter, color := "#000000", size := 4,
                opacity := 1, points := [⟨0, 0⟩] })
      = some { id := "a", tool := .highlighter, color := "#000000", size := 4,
               opacity := 1, points := [⟨0, 0⟩, ⟨3, 0⟩] } :=
  ⟨rfl, by norm_num [distanceSq], by norm_num [distanceSq],
    (pen_capture_state_machine.2.2.1
        { id := "a", tool := .highlighter, color := "#000000", size := 4,
          opacity := 1, points := [⟨0, 0⟩] } ⟨0, 0⟩ ⟨3, 0⟩ rfl).2.1
      (by norm_num [distanceSq]) (by norm_num [distanceSq])⟩

end NoteApp
